import Mathlib

set_option maxRecDepth 8000

/-!
Verification development for the mini-rag incremental indexing pipeline
(`src/app/main.py`).

The Python source is shallowly embedded below:

* the four JSON mapping files (source→doc-id, doc-id→source,
  doc-id→excerpt-ids, excerpt db) and the vector index are modelled as
  association lists threaded through a `Store` record;
* the embedding / completion model clients (external collaborators) are
  parameters gathered in a `Models` record;
* pure helpers from `app.utilities` (not under `src/`) are modelled from
  the spec, each marked `Modelled from the spec:` in its doc comment.
-/

/-! ## Association lists (model of the JSON mapping files and NanoVectorDB) -/

/-- First-match lookup in an association list, as a Python dict read. -/
def alistLookup {α : Type} (k : String) : List (String × α) → Option α
  | [] => none
  | (k', v) :: rest => if k' = k then some v else alistLookup k rest

/-- Modelled from the spec: `add_to_json` / dict assignment — insert or
replace in place, preserving insertion order (Python dict semantics). -/
def alistInsert {α : Type} (k : String) (v : α) : List (String × α) → List (String × α)
  | [] => [(k, v)]
  | (k', v') :: rest => if k' = k then (k, v) :: rest else (k', v') :: alistInsert k v rest

/-- Modelled from the spec: `remove_from_json` — delete a key if present;
a missing key is a no-op, not an error. -/
def alistErase {α : Type} (k : String) : List (String × α) → List (String × α)
  | [] => []
  | (k', v) :: rest => if k' = k then alistErase k rest else (k', v) :: alistErase k rest

/-- Keys of an association list, in order. -/
def keysOf {α : Type} (m : List (String × α)) : List String :=
  m.map Prod.fst

/-- Boolean membership of a string in a list of strings. -/
def memStr (e : String) : List String → Bool
  | [] => false
  | x :: xs => if x = e then true else memStr e xs

theorem alistLookup_insert_self {α : Type} (k : String) (v : α) (m : List (String × α)) :
    alistLookup k (alistInsert k v m) = some v := by
  induction m with
  | nil => simp [alistInsert, alistLookup]
  | cons p rest ih =>
    obtain ⟨k', v'⟩ := p
    by_cases h : k' = k <;> simp [alistInsert, alistLookup, h, ih]

theorem alistLookup_insert_ne {α : Type} {k k' : String} (v : α) (m : List (String × α))
    (h : k' ≠ k) : alistLookup k' (alistInsert k v m) = alistLookup k' m := by
  induction m with
  | nil => simp [alistInsert, alistLookup, Ne.symm h]
  | cons p rest ih =>
    obtain ⟨k'', v''⟩ := p
    by_cases hk : k'' = k
    · subst hk
      simp [alistInsert, alistLookup, Ne.symm h]
    · by_cases hk2 : k'' = k'
      · subst hk2
        simp [alistInsert, alistLookup, hk]
      · simp [alistInsert, alistLookup, hk, hk2, ih]

theorem alistLookup_erase_self {α : Type} (k : String) (m : List (String × α)) :
    alistLookup k (alistErase k m) = none := by
  induction m with
  | nil => simp [alistErase, alistLookup]
  | cons p rest ih =>
    obtain ⟨k', v⟩ := p
    by_cases h : k' = k <;> simp [alistErase, alistLookup, h, ih]

theorem alistLookup_erase_ne {α : Type} {k k' : String} (m : List (String × α))
    (h : k' ≠ k) : alistLookup k' (alistErase k m) = alistLookup k' m := by
  induction m with
  | nil => simp [alistErase, alistLookup]
  | cons p rest ih =>
    obtain ⟨k'', v⟩ := p
    by_cases hk : k'' = k
    · subst hk
      simp [alistErase, alistLookup, Ne.symm h, ih]
    · by_cases hk2 : k'' = k'
      · subst hk2
        simp [alistErase, alistLookup, hk]
      · simp [alistErase, alistLookup, hk, hk2, ih]

theorem alistLookup_erase_none {α : Type} {k k' : String} (m : List (String × α))
    (h : alistLookup k' m = none) : alistLookup k' (alistErase k m) = none := by
  by_cases hk : k' = k
  · rw [hk]
    exact alistLookup_erase_self k m
  · rw [alistLookup_erase_ne m hk]
    exact h

theorem alistInsert_eq_append {α : Type} {k : String} (v : α) {m : List (String × α)}
    (h : alistLookup k m = none) : alistInsert k v m = m ++ [(k, v)] := by
  induction m with
  | nil => simp [alistInsert]
  | cons p rest ih =>
    obtain ⟨k', v'⟩ := p
    by_cases hk : k' = k
    · simp [alistLookup, hk] at h
    · simp only [alistLookup, hk, if_neg hk, ite_false] at h
      simp [alistInsert, hk, ih h]

theorem length_alistInsert_of_lookup_none {α : Type} {k : String} (v : α)
    {m : List (String × α)} (h : alistLookup k m = none) :
    (alistInsert k v m).length = m.length + 1 := by
  rw [alistInsert_eq_append v h]
  simp

theorem keysOf_alistInsert_of_lookup_none {α : Type} {k : String} (v : α)
    {m : List (String × α)} (h : alistLookup k m = none) :
    keysOf (alistInsert k v m) = keysOf m ++ [k] := by
  rw [alistInsert_eq_append v h]
  simp [keysOf]

theorem alistLookup_isSome_insert {α : Type} {k : String} (k' : String) (v : α)
    {m : List (String × α)} (h : (alistLookup k m).isSome = true) :
    (alistLookup k (alistInsert k' v m)).isSome = true := by
  by_cases hk : k = k'
  · subst hk; rw [alistLookup_insert_self]; rfl
  · rw [alistLookup_insert_ne v m hk]; exact h

theorem alistLookup_insert_self_isSome {α : Type} (k : String) (v : α)
    (m : List (String × α)) : (alistLookup k (alistInsert k v m)).isSome = true := by
  rw [alistLookup_insert_self]; rfl

theorem alistLookup_eq_none_of_not_mem_keys {α : Type} {k : String}
    {m : List (String × α)} (h : ¬ k ∈ keysOf m) : alistLookup k m = none := by
  induction m with
  | nil => rfl
  | cons p rest ih =>
    obtain ⟨k', v⟩ := p
    simp only [keysOf, List.map_cons, List.mem_cons, not_or] at h
    have h1 : ¬ k' = k := fun hh => h.1 hh.symm
    simp [alistLookup, h1, ih (by simpa [keysOf] using h.2)]

theorem not_mem_keys_of_alistLookup_eq_none {α : Type} {k : String}
    {m : List (String × α)} (h : alistLookup k m = none) : ¬ k ∈ keysOf m := by
  induction m with
  | nil => simp [keysOf]
  | cons p rest ih =>
    obtain ⟨k', v⟩ := p
    by_cases hk : k' = k
    · simp [alistLookup, hk] at h
    · simp only [alistLookup, if_neg hk] at h
      simp only [keysOf, List.map_cons, List.mem_cons, not_or]
      exact ⟨fun hh => hk hh.symm, by simpa [keysOf] using ih h⟩

theorem alistLookup_foldl_erase_of_mem {α : Type} {e : String} :
    ∀ (ids : List String) (m : List (String × α)), e ∈ ids →
      alistLookup e (ids.foldl (fun db k => alistErase k db) m) = none
  | [], _, h => absurd h (by simp)
  | k :: ids, m, h => by
    rcases List.mem_cons.mp h with he | he
    · subst he
      by_cases hrest : e ∈ ids
      · exact alistLookup_foldl_erase_of_mem ids _ hrest
      · have : ∀ (l : List String) (m' : List (String × α)),
            alistLookup e m' = none →
            alistLookup e (l.foldl (fun db k => alistErase k db) m') = none := by
          intro l
          induction l with
          | nil => intro m' hm'; simpa using hm'
          | cons x xs ih =>
            intro m' hm'
            exact ih _ (alistLookup_erase_none m' hm')
        exact this ids _ (alistLookup_erase_self e m)
    · exact alistLookup_foldl_erase_of_mem ids _ he

theorem memStr_eq_false_of_not_mem {e : String} :
    ∀ {l : List String}, ¬ e ∈ l → memStr e l = false
  | [], _ => rfl
  | x :: xs, h => by
    have hx : ¬ x = e := fun hh => h (by simp [hh])
    simp only [memStr, if_neg hx]
    exact memStr_eq_false_of_not_mem (fun hh => h (by simp [hh]))

/-! ## String helpers (character-list based, so that everything evaluates) -/

/-- Python slice `s[i : i + len]` on code points. -/
def strSlice (s : String) (i len : Nat) : String :=
  ⟨(s.data.drop i).take len⟩

/-- Drop the first and the last character: Python `s[1:-1]`. -/
def strDropEnds (s : String) : String :=
  ⟨(s.data.drop 1).dropLast⟩

/-- Whitespace test used by the trim helpers. -/
def isWS (c : Char) : Bool :=
  c = ' ' || c = '\n' || c = '\t' || c = '\r'

/-- Trim whitespace from both ends of a character list. -/
def trimList (p : List Char) : List Char :=
  (((p.dropWhile isWS).reverse).dropWhile isWS).reverse

/-- Python `str.strip()` on both ends. -/
def strTrim (s : String) : String :=
  ⟨trimList s.data⟩

/-- Python `str.lower()`. -/
def strToLower (s : String) : String :=
  ⟨s.data.map Char.toLower⟩

/-- Fuel-driven replacement of every occurrence of a pattern, Python
`str.replace`; the fuel is the input length, enough for every step to
consume at least one character. -/
def replaceFuel (pat rep : List Char) : Nat → List Char → List Char
  | _, [] => []
  | 0, l => l
  | fuel + 1, c :: cs =>
    if pat.isPrefixOf (c :: cs) then
      rep ++ replaceFuel pat rep fuel (cs.drop (pat.length - 1))
    else
      c :: replaceFuel pat rep fuel cs

/-- Python `str.replace(pat, rep)` (all occurrences, left to right). -/
def strReplace (s pat rep : String) : String :=
  if pat.data.isEmpty then s
  else ⟨replaceFuel pat.data rep.data s.data.length s.data⟩

/-- Fuel-driven split on a separator occurrence, left to right. -/
def splitOnAuxL (sep : List Char) : Nat → List Char → List Char → List (List Char)
  | _, acc, [] => [acc.reverse]
  | 0, acc, rest => [acc.reverse ++ rest]
  | fuel + 1, acc, c :: cs =>
    if sep.isPrefixOf (c :: cs) then
      acc.reverse :: splitOnAuxL sep fuel [] (cs.drop (sep.length - 1))
    else
      splitOnAuxL sep fuel (c :: acc) cs

/-- Split a character list on every occurrence of a non-empty separator. -/
def splitOnList (sep l : List Char) : List (List Char) :=
  if sep.isEmpty then [l] else splitOnAuxL sep l.length [] l

/-- Modelled from the spec: `app.utilities.split_string_by_multi_markers`
(not under `src/`) — split on each marker, trim the pieces, and drop the
empty ones, so a record with no fields yields the empty list. -/
def split_string_by_multi_markers (s : String) (markers : List String) : List String :=
  let pieces := markers.foldl
    (fun (ps : List (List Char)) (mk : String) =>
      (ps.map (splitOnList mk.data)).foldr (· ++ ·) [])
    [s.data]
  ((pieces.map trimList).filter (fun p => decide (p ≠ []))).map
    (fun p => (⟨p⟩ : String))

/-- Modelled from the spec: `app.utilities.clean_str` (not under `src/`) —
normalize a record string by trimming stray surrounding whitespace. -/
def clean_str (s : String) : String :=
  strTrim s

/-- Modelled from the spec: `app.utilities.make_hash` (not under `src/`) —
deterministic content-only identifier derivation; the concrete digest is
modelled as the tagged content itself, which is deterministic and
content-only exactly as §4.1 requires. -/
def make_hash (content : String) (pre : String) : String :=
  pre ++ content

/-! ## Chunker (`get_excerpts` in `src/app/main.py`) -/

/-- The loop `for i in range(0, len(content), step): excerpts.append(content[i:i+n])`,
with explicit fuel so that it evaluates by kernel reduction; the caller
passes fuel `content.length + 1`, enough for every iteration. -/
def chunkFuel (content : String) (n step : Nat) : Nat → Nat → List String
  | 0, _ => []
  | fuel + 1, i =>
    if i < content.length then strSlice content i n :: chunkFuel content n step fuel (i + step)
    else []

/-- The chunk loop for a positive step, starting at offset zero. -/
def chunkLoop (content : String) (n step : Nat) : List String :=
  chunkFuel content n step (content.length + 1) 0

/-- Chunker `get_excerpts(content, n=2000, overlap=200)`: `step = n - overlap`;
Python `range(0, len(content), step)` raises `ValueError` when the step is
zero, and is empty when the step is negative, in which case the function
silently returns no excerpts. -/
def get_excerpts (content : String) (n : Nat := 2000) (overlap : Nat := 200) :
    Except String (List String) :=
  if n < overlap then .ok []
  else if n = overlap then .error "range() arg 3 must not be zero"
  else .ok (chunkLoop content n (n - overlap))

/-- The excerpt list the indexing passes use (default parameters; since
`2000 > 200` the degenerate branches are unreachable). -/
def excerptsOf (content : String) : List String :=
  match get_excerpts content 2000 200 with
  | .ok es => es
  | .error _ => []

theorem excerptsOf_eq (content : String) :
    excerptsOf content = chunkLoop content 2000 1800 := rfl

theorem chunkFuel_length {content : String} {n step : Nat} (hstep : 0 < step) :
    ∀ (fuel i : Nat), content.length ≤ i + fuel * step →
      (chunkFuel content n step fuel i).length = (content.length - i + step - 1) / step := by
  intro fuel
  induction fuel with
  | zero =>
    intro i hle
    have hdiv : (content.length - i + step - 1) / step = 0 := by
      rw [(by omega : content.length - i = 0)]
      exact Nat.div_eq_of_lt (by omega)
    rw [hdiv]
    rfl
  | succ fuel ih =>
    intro i hle
    by_cases hi : i < content.length
    · have hle' : i + (fuel + 1) * step = i + step + fuel * step := by ring
      have hrec := ih (i + step) (by omega)
      simp only [chunkFuel, if_pos hi, List.length_cons, hrec]
      have hm : 1 ≤ content.length - i := by omega
      have hsub : content.length - (i + step) = content.length - i - step := by omega
      rw [hsub]
      rcases le_or_lt (content.length - i) step with hms | hms
      · have h1 : content.length - i - step = 0 := by omega
        rw [h1]
        have h2 : (0 + step - 1) / step = 0 := Nat.div_eq_of_lt (by omega)
        have h3 : (content.length - i + step - 1) / step = 1 := by
          have he : content.length - i + step - 1 = (content.length - i - 1) + step := by
            omega
          rw [he, Nat.add_div_right _ hstep, Nat.div_eq_of_lt (by omega)]
        rw [h2, h3]
      · have h1 : content.length - i - step + step - 1 = content.length - i - 1 := by omega
        have h2 : content.length - i + step - 1 = (content.length - i - 1) + step := by omega
        rw [h1, h2, Nat.add_div_right _ hstep]
    · have hdiv : (content.length - i + step - 1) / step = 0 := by
        rw [(by omega : content.length - i = 0)]
        exact Nat.div_eq_of_lt (by omega)
      simp only [chunkFuel, if_neg hi, List.length_nil, hdiv]

theorem chunkLoop_length {content : String} {n step : Nat} (hstep : 0 < step) :
    (chunkLoop content n step).length = (content.length + step - 1) / step := by
  have hfuel : content.length ≤ 0 + (content.length + 1) * step := by
    have := Nat.le_mul_of_pos_right (content.length + 1) hstep
    omega
  have := @chunkFuel_length content n step hstep (content.length + 1) 0 hfuel
  simpa using this

theorem chunkFuel_getD {content : String} {n step : Nat} (hstep : 0 < step) :
    ∀ (fuel i j : Nat), content.length ≤ i + fuel * step →
      i + j * step < content.length →
      (chunkFuel content n step fuel i).getD j "" = strSlice content (i + j * step) n := by
  intro fuel
  induction fuel with
  | zero =>
    intro i j hle hj
    have : i ≤ i + j * step := Nat.le_add_right _ _
    omega
  | succ fuel ih =>
    intro i j hle hj
    have hi : i < content.length := by
      have : i ≤ i + j * step := Nat.le_add_right _ _
      omega
    cases j with
    | zero =>
      simp [chunkFuel, if_pos hi]
    | succ j =>
      have harith : i + step + j * step = i + (j + 1) * step := by ring
      have hrec := ih (i + step) j (by
        have : i + (fuel + 1) * step = i + step + fuel * step := by ring
        omega) (by omega)
      simp only [chunkFuel, if_pos hi, List.getD_cons_succ, hrec, harith]

theorem chunkLoop_getD {content : String} {n step j : Nat} (hstep : 0 < step)
    (hj : j * step < content.length) :
    (chunkLoop content n step).getD j "" = strSlice content (j * step) n := by
  have hfuel : content.length ≤ 0 + (content.length + 1) * step := by
    have := Nat.le_mul_of_pos_right (content.length + 1) hstep
    omega
  have := @chunkFuel_getD content n step hstep (content.length + 1) 0 j hfuel (by omega)
  simpa using this

theorem strSlice_length (s : String) (i len : Nat) :
    (strSlice s i len).length = min len (s.length - i) := by
  show ((s.data.drop i).take len).length = min len (s.length - i)
  rw [List.length_take, List.length_drop]
  rfl

/-! ## RecordGrammar and GraphStore (`extract_entities` in `src/app/main.py`) -/

/-- Attributes of an entity node (`graph.add_node(name, category=..., description=...)`). -/
structure NodeData where
  category : String
  description : String
deriving DecidableEq

/-- Attributes of a relationship edge
(`graph.add_edge(source, target, description=..., keywords=..., weight=...)`);
the weight is kept as the verbatim model text. -/
structure EdgeData where
  description : String
  keywords : String
  weight : String
deriving DecidableEq

/-- The persisted `networkx.DiGraph`: nodes keyed by verbatim name (a node
created only as an edge endpoint has no attributes yet), directed edges
keyed by the (source name, target name) pair, and the single
`content_keywords` metadata slot. -/
structure Graph where
  nodes : List (String × Option NodeData)
  edges : List ((String × String) × EdgeData)
  contentKeywords : Option String
deriving DecidableEq

def Graph.empty : Graph :=
  { nodes := [], edges := [], contentKeywords := none }

/-- Model of `networkx` node insertion: update the attributes if the node exists,
append it otherwise. -/
def addNode (name : String) (category description : String) (g : Graph) : Graph :=
  { g with nodes := alistInsert name (some { category := category, description := description }) g.nodes }

/-- Model of `networkx` implicit endpoint creation: an edge endpoint that is not yet
a node is appended without attributes; an existing node is untouched. -/
def ensureNode (name : String) (nodes : List (String × Option NodeData)) :
    List (String × Option NodeData) :=
  match alistLookup name nodes with
  | some _ => nodes
  | none => nodes ++ [(name, none)]

/-- Insert-or-replace for the edge map, keyed by the (source, target) pair. -/
def edgeInsert (k : String × String) (v : EdgeData) :
    List ((String × String) × EdgeData) → List ((String × String) × EdgeData)
  | [] => [(k, v)]
  | (k', v') :: rest =>
    if k' = k then (k, v) :: rest else (k', v') :: edgeInsert k v rest

/-- Model of `networkx` edge insertion: both endpoints are created if absent and the
edge attributes are overwritten. -/
def addEdge (src tgt : String) (e : EdgeData) (g : Graph) : Graph :=
  { g with nodes := ensureNode tgt (ensureNode src g.nodes),
           edges := edgeInsert (src, tgt) e g.edges }

/-- Dispatch of one parsed field list, from the inner loop of
`extract_entities`: the lower-cased field 0 is the discriminator; a record
whose field count is below the discriminator's minimum, or whose
discriminator is unknown, is dropped (the graph is returned unchanged). -/
def applyFields (g : Graph) : List String → Graph
  | [] => g
  | f0 :: rest =>
    if strToLower f0 = "\"entity\"" then
      match rest with
      | name :: category :: description :: _ => addNode name category description g
      | _ => g
    else if strToLower f0 = "\"relationship\"" then
      match rest with
      | src :: tgt :: description :: keywords :: weight :: _ =>
        addEdge src tgt { description := description, keywords := keywords, weight := weight } g
      | _ => g
    else if strToLower f0 = "\"content_keywords\"" then
      match rest with
      | kw :: _ => { g with contentKeywords := some kw }
      | _ => g
    else g

/-- One record of the inner loop of `extract_entities`: split the fields on
the field delimiter and dispatch. -/
def applyRecord (g : Graph) (record : String) : Graph :=
  applyFields g (split_string_by_multi_markers record ["<|>"])

/-- Fold a batch of already-cleaned records into the graph. -/
def applyRecords (records : List String) (g : Graph) : Graph :=
  records.foldl applyRecord g

/-- Strip one layer of enclosing parentheses if present (Python
`record[1:-1]` guarded by `startswith`/`endswith`). -/
def stripParens (r : String) : String :=
  if r.data.head? = some '(' && r.data.getLast? = some ')' then strDropEnds r else r

/-- Parsing and graph application of one extraction-model response: strip
the completion marker, trim, split into records on the record delimiter,
strip parentheses, clean, and apply each record in order. -/
def processResponse (g : Graph) (result : String) : Graph :=
  let dataStr := strTrim (strReplace result "<|COMPLETE|>" "")
  let records := split_string_by_multi_markers dataStr ["+|+"]
  let cleaned := records.map (fun r => clean_str (stripParens r))
  applyRecords cleaned g

/-- The malformed-field-list test the claims quantify over: no fields at
all, a field count below the discriminator's minimum, or an unknown
discriminator. -/
def malformedFields : List String → Bool
  | [] => true
  | f0 :: rest =>
    if strToLower f0 = "\"entity\"" then decide ((f0 :: rest).length < 4)
    else if strToLower f0 = "\"relationship\"" then decide ((f0 :: rest).length < 6)
    else if strToLower f0 = "\"content_keywords\"" then decide ((f0 :: rest).length < 2)
    else true

/-- A record string is malformed when its parsed field list is. -/
def malformedRecord (record : String) : Bool :=
  malformedFields (split_string_by_multi_markers record ["<|>"])

/-! ## Stores, models, and the document lifecycle (`src/app/main.py`) -/

/-- One `EXCERPT_DB` record, as written by `embed_document`. -/
structure ExcerptRecord where
  doc_id : String
  doc_order_index : Nat
  excerpt : String
  summary : String
  indexed_at : Nat
deriving DecidableEq

/-- One NanoVectorDB record `{__id__, __vector__, __doc_id__, __inserted_at__}`. -/
structure VectorRecord where
  vector : List Int
  doc_id : String
  inserted_at : Nat
deriving DecidableEq

/-- The persistent state the pipeline writes: the four JSON mapping files,
the vector index, and the knowledge-graph file. -/
structure Store where
  sourceToDocId : List (String × String)
  docIdToSource : List (String × String)
  docIdToExcerptIds : List (String × List String)
  excerptDb : List (String × ExcerptRecord)
  vectorDb : List (String × VectorRecord)
  graph : Graph
deriving DecidableEq

/-- The freshly initialized state: every map file created as `{}` and no
graph file yet. -/
def emptyStore : Store :=
  { sourceToDocId := [], docIdToSource := [], docIdToExcerptIds := [],
    excerptDb := [], vectorDb := [], graph := Graph.empty }

/-- Modelled from the spec: the external model clients (`app.llm`, not
under `src/`). `summary content excerpt` is
`get_completion(excerpt_summary_prompt(content, excerpt))`; `embedding` is
`get_embedding`; `extraction excerpt` is
`get_completion(get_extract_entities_prompt(excerpt))`; `now` is the
`time.time()` clock, frozen because no claim depends on time. The float
vector components are abstracted to an integer payload — no claim depends
on their arithmetic. -/
structure Models where
  summary : String → String → String
  embedding : String → List Int
  extraction : String → String
  now : Nat

/-- The per-excerpt writes of the `embed_document` loop body: upsert into
the vector index and write the excerpt record, both keyed by the excerpt
id. -/
def writeExcerpt (docId : String) (i : Nat) (excerpt summary : String) (v : List Int)
    (now : Nat) (σ : Store) : Store :=
  let eid := make_hash excerpt "excerpt_id_"
  { σ with
    vectorDb := alistInsert eid { vector := v, doc_id := docId, inserted_at := now } σ.vectorDb,
    excerptDb := alistInsert eid
      { doc_id := docId, doc_order_index := i, excerpt := excerpt, summary := summary,
        indexed_at := now } σ.excerptDb }

/-- The `for i, excerpt in enumerate(excerpts)` loop of `embed_document`,
returning the final state and the collected excerpt ids in order. -/
def embedLoop (m : Models) (content docId : String) :
    List String → Nat → Store → Store × List String
  | [], _, σ => (σ, [])
  | e :: es, i, σ =>
    let s := m.summary content e
    let v := m.embedding (e ++ "\n\n" ++ s)
    let r := embedLoop m content docId es (i + 1) (writeExcerpt docId i e s v m.now σ)
    (r.1, make_hash e "excerpt_id_" :: r.2)

/-- Embedding leg `embed_document(content, doc_id)`: chunk, process each excerpt in
order, persist the vector index (persistence is the state itself here),
and write the doc→excerpt-ids entry once at the end. -/
def embed_document (m : Models) (content docId : String) (σ : Store) : Store :=
  let r := embedLoop m content docId (excerptsOf content) 0 σ
  { r.1 with docIdToExcerptIds := alistInsert docId r.2 r.1.docIdToExcerptIds }

/-- The extraction leg's effect on the graph: for each excerpt, request an
extraction and fold the parsed records into the graph. -/
def extractGraph (m : Models) (content : String) (g : Graph) : Graph :=
  (excerptsOf content).foldl (fun g e => processResponse g (m.extraction e)) g

/-- Extraction leg `extract_entities(content, doc_id)`: load the persisted graph (the
`graph` field of the store; the corrupt-file fallback of the source is not
reachable in this model), apply every excerpt's records, and write the
graph back. As in the source, `docId` is not used in any graph write. -/
def extract_entities (m : Models) (content docId : String) (σ : Store) : Store :=
  { σ with graph := extractGraph m content σ.graph }

/-- Map writer `add_document_maps(source, content)`: recompute the doc id and record
the two id-map entries. -/
def add_document_maps (source content : String) (σ : Store) : Store :=
  let docId := make_hash content "doc_"
  { σ with sourceToDocId := alistInsert source docId σ.sourceToDocId,
           docIdToSource := alistInsert docId source σ.docIdToSource }

/-- Removal `remove_document_by_id(doc_id)`: if the doc id is mapped to a source,
delete both id-map entries; if it has an excerpt-ids entry, delete every
listed excerpt record, the excerpt-ids entry, and the vector-index entry
of every listed id, then save the index. Missing entries are no-ops. -/
def remove_document_by_id (docId : String) (σ : Store) : Store :=
  let σ1 :=
    match alistLookup docId σ.docIdToSource with
    | some source =>
      { σ with docIdToSource := alistErase docId σ.docIdToSource,
               sourceToDocId := alistErase source σ.sourceToDocId }
    | none => σ
  match alistLookup docId σ.docIdToExcerptIds with
  | some ids =>
    { σ1 with excerptDb := ids.foldl (fun db e => alistErase e db) σ1.excerptDb,
              docIdToExcerptIds := alistErase docId σ1.docIdToExcerptIds,
              vectorDb := ids.foldl (fun db e => alistErase e db) σ1.vectorDb }
  | none => σ1

/-- The per-source body of `import_documents`: compute the content hash
and dispatch on the stored source→doc-id entry (new / changed /
unchanged). -/
def importSource (m : Models) (source content : String) (σ : Store) : Store :=
  let docId := make_hash content "doc_"
  match alistLookup source σ.sourceToDocId with
  | none =>
    extract_entities m content docId
      (embed_document m content docId (add_document_maps source content σ))
  | some oldId =>
    if oldId = docId then σ
    else
      extract_entities m content docId
        (embed_document m content docId
          (add_document_maps source content (remove_document_by_id oldId σ)))

/-- Import pass `import_documents()` over a discovered source list; `get_docs` and
`read_file` are external collaborators, passed as the list and the
read function. -/
def import_documents (m : Models) (sources : List String) (readFile : String → String)
    (σ : Store) : Store :=
  sources.foldl (fun σ s => importSource m s (readFile s) σ) σ

/-- The id list a `NanoVectorDB.query` call can return: stored records that
pass the similarity filter (the float similarity computation is abstracted
as the `keep` predicate), truncated to `topK`. -/
def vectorQuery (keep : String → VectorRecord → Bool) (topK : Nat) (σ : Store) : List String :=
  ((σ.vectorDb.filter (fun p => keep p.1 p.2)).map Prod.fst).take topK

/-! ## Operation sequences over the lifecycle -/

/-- One lifecycle operation: importing one source with its current
content, or removing a document by id. -/
inductive Op where
  | importSrc (source content : String)
  | removeDoc (docId : String)

def applyOp (m : Models) : Op → Store → Store
  | .importSrc s c, σ => importSource m s c σ
  | .removeDoc d, σ => remove_document_by_id d σ

def applyOps (m : Models) (ops : List Op) (σ : Store) : Store :=
  ops.foldl (fun σ op => applyOp m op σ) σ

/-- An import is safe when the content's doc id is not currently assigned
to a different source (two sources with identical content violate this). -/
def safeOp : Op → Store → Bool
  | .importSrc s c, σ =>
    match alistLookup (make_hash c "doc_") σ.docIdToSource with
    | none => true
    | some s' => decide (s' = s)
  | .removeDoc _, _ => true

def safeOps (m : Models) : List Op → Store → Bool
  | [], _ => true
  | op :: ops, σ => safeOp op σ && safeOps m ops (applyOp m op σ)

/-- The two id maps are exact inverses of each other. -/
def InvMaps (m1 m2 : List (String × String)) : Prop :=
  ∀ s d, alistLookup s m1 = some d ↔ alistLookup d m2 = some s

/-- The store's source→doc-id and doc-id→source maps are exact inverses. -/
def MapInv (σ : Store) : Prop :=
  InvMaps σ.sourceToDocId σ.docIdToSource

/-! ## The embedding leg with fallible model calls (for the failure claim) -/

/-- Modelled from the spec: the same model clients with the possibility of
a call failure (`none`) made explicit; an exception from `get_completion`
or `get_embedding` propagates out of `embed_document`. -/
structure ModelsE where
  summary : String → String → Option String
  embedding : String → Option (List Int)
  now : Nat

/-- The `embed_document` loop with fallible calls: a failing summary or
embedding call aborts the loop, leaving the stores exactly as already
written (`Except.error` carries that state). -/
def embedLoopE (m : ModelsE) (content docId : String) :
    List String → Nat → Store → Except Store (Store × List String)
  | [], _, σ => .ok (σ, [])
  | e :: es, i, σ =>
    match m.summary content e with
    | none => .error σ
    | some s =>
      match m.embedding (e ++ "\n\n" ++ s) with
      | none => .error σ
      | some v =>
        match embedLoopE m content docId es (i + 1) (writeExcerpt docId i e s v m.now σ) with
        | .ok (σ', ids) => .ok (σ', make_hash e "excerpt_id_" :: ids)
        | .error σ' => .error σ'

/-- Variant of `embed_document` with fallible calls: on success the doc→excerpt-ids
entry is written after the loop; on failure the exception propagates and
that write never happens. -/
def embedDocumentE (m : ModelsE) (content docId : String) (σ : Store) : Except Store Store :=
  match embedLoopE m content docId (excerptsOf content) 0 σ with
  | .ok (σ', ids) =>
    .ok { σ' with docIdToExcerptIds := alistInsert docId ids σ'.docIdToExcerptIds }
  | .error σ' => .error σ'

/-- The store state a loop run leaves behind, whether it completed or
aborted. -/
def loopStateOf : Except Store (Store × List String) → Store
  | .ok (σ, _) => σ
  | .error σ => σ

/-- The store state after processing the first `k` excerpts of a document
(starting order index 0). -/
def embedAfter (m : ModelsE) (content docId : String) (k : Nat) (σ : Store) : Store :=
  loopStateOf (embedLoopE m content docId ((excerptsOf content).take k) 0 σ)

/-- Whether both model calls for one excerpt succeed. -/
def excerptCallOk (m : ModelsE) (content e : String) : Bool :=
  match m.summary content e with
  | none => false
  | some s => (m.embedding (e ++ "\n\n" ++ s)).isSome

/-! ## Frame lemmas for the pipeline operations -/

theorem embedLoop_frame (m : Models) (content docId : String) :
    ∀ (es : List String) (i : Nat) (σ : Store),
      (embedLoop m content docId es i σ).1.sourceToDocId = σ.sourceToDocId ∧
      (embedLoop m content docId es i σ).1.docIdToSource = σ.docIdToSource ∧
      (embedLoop m content docId es i σ).1.docIdToExcerptIds = σ.docIdToExcerptIds ∧
      (embedLoop m content docId es i σ).1.graph = σ.graph := by
  intro es
  induction es with
  | nil => intro i σ; exact ⟨rfl, rfl, rfl, rfl⟩
  | cons e es ih =>
    intro i σ
    have h := ih (i + 1) (writeExcerpt docId i e (m.summary content e)
      (m.embedding (e ++ "\n\n" ++ m.summary content e)) m.now σ)
    simpa [embedLoop, writeExcerpt] using h

theorem embed_document_frame (m : Models) (content docId : String) (σ : Store) :
    (embed_document m content docId σ).sourceToDocId = σ.sourceToDocId ∧
    (embed_document m content docId σ).docIdToSource = σ.docIdToSource ∧
    (embed_document m content docId σ).graph = σ.graph := by
  have h := embedLoop_frame m content docId (excerptsOf content) 0 σ
  exact ⟨h.1, h.2.1, h.2.2.2⟩

theorem embedLoop_ids (m : Models) (content docId : String) :
    ∀ (es : List String) (i : Nat) (σ : Store),
      (embedLoop m content docId es i σ).2 = es.map (fun e => make_hash e "excerpt_id_") := by
  intro es
  induction es with
  | nil => intro i σ; rfl
  | cons e es ih =>
    intro i σ
    simp [embedLoop, ih (i + 1)]

theorem embed_document_docIdToExcerptIds (m : Models) (content docId : String) (σ : Store) :
    alistLookup docId (embed_document m content docId σ).docIdToExcerptIds =
      some ((excerptsOf content).map (fun e => make_hash e "excerpt_id_")) := by
  show alistLookup docId
    (alistInsert docId (embedLoop m content docId (excerptsOf content) 0 σ).2
      (embedLoop m content docId (excerptsOf content) 0 σ).1.docIdToExcerptIds) = _
  rw [alistLookup_insert_self, embedLoop_ids]

theorem embed_document_docIdToExcerptIds_other (m : Models) (content docId key : String)
    (σ : Store) (hne : key ≠ docId) :
    alistLookup key (embed_document m content docId σ).docIdToExcerptIds =
      alistLookup key σ.docIdToExcerptIds := by
  show alistLookup key
    (alistInsert docId (embedLoop m content docId (excerptsOf content) 0 σ).2
      (embedLoop m content docId (excerptsOf content) 0 σ).1.docIdToExcerptIds) = _
  rw [alistLookup_insert_ne _ _ hne,
    (embedLoop_frame m content docId (excerptsOf content) 0 σ).2.2.1]

theorem remove_maps_of_some {docId source : String} {σ : Store}
    (h : alistLookup docId σ.docIdToSource = some source) :
    (remove_document_by_id docId σ).sourceToDocId = alistErase source σ.sourceToDocId ∧
    (remove_document_by_id docId σ).docIdToSource = alistErase docId σ.docIdToSource := by
  cases h2 : alistLookup docId σ.docIdToExcerptIds <;>
    simp [remove_document_by_id, h, h2]

theorem remove_maps_of_none {docId : String} {σ : Store}
    (h : alistLookup docId σ.docIdToSource = none) :
    (remove_document_by_id docId σ).sourceToDocId = σ.sourceToDocId ∧
    (remove_document_by_id docId σ).docIdToSource = σ.docIdToSource := by
  cases h2 : alistLookup docId σ.docIdToExcerptIds <;>
    simp [remove_document_by_id, h, h2]

theorem remove_graph_eq (docId : String) (σ : Store) :
    (remove_document_by_id docId σ).graph = σ.graph := by
  cases h1 : alistLookup docId σ.docIdToSource <;>
    cases h2 : alistLookup docId σ.docIdToExcerptIds <;>
      simp [remove_document_by_id, h1, h2]

theorem remove_docIdToSource_self (docId : String) (σ : Store) :
    alistLookup docId (remove_document_by_id docId σ).docIdToSource = none := by
  cases h1 : alistLookup docId σ.docIdToSource with
  | none => exact ((remove_maps_of_none h1).2).symm ▸ h1
  | some source => exact ((remove_maps_of_some h1).2).symm ▸ alistLookup_erase_self docId _

theorem remove_docIdToExcerptIds_self (docId : String) (σ : Store) :
    alistLookup docId (remove_document_by_id docId σ).docIdToExcerptIds = none := by
  cases h1 : alistLookup docId σ.docIdToSource <;>
    cases h2 : alistLookup docId σ.docIdToExcerptIds <;>
      simp [remove_document_by_id, h1, h2, alistLookup_erase_self]

theorem remove_noop (docId : String) (σ : Store)
    (h1 : alistLookup docId σ.docIdToSource = none)
    (h2 : alistLookup docId σ.docIdToExcerptIds = none) :
    remove_document_by_id docId σ = σ := by
  simp [remove_document_by_id, h1, h2]

/-! ## Inverse-map lemmas -/

theorem InvMaps_empty : InvMaps [] [] := by
  intro s d
  simp [alistLookup]

theorem MapInv_empty : MapInv emptyStore :=
  InvMaps_empty

theorem InvMaps_erase {m1 m2 : List (String × String)} (h : InvMaps m1 m2)
    {d0 s0 : String} (hd : alistLookup d0 m2 = some s0) :
    InvMaps (alistErase s0 m1) (alistErase d0 m2) := by
  have hs : alistLookup s0 m1 = some d0 := (h s0 d0).mpr hd
  intro s d
  by_cases hss : s = s0
  · rw [hss, alistLookup_erase_self]
    constructor
    · intro hc
      simp at hc
    · intro hc
      by_cases hdd : d = d0
      · rw [hdd, alistLookup_erase_self] at hc
        simp at hc
      · rw [alistLookup_erase_ne m2 hdd] at hc
        have h2 := (h s0 d).mpr hc
        rw [hs] at h2
        exact absurd (Option.some.inj h2).symm hdd
  · rw [alistLookup_erase_ne m1 hss]
    by_cases hdd : d = d0
    · rw [hdd, alistLookup_erase_self]
      constructor
      · intro hc
        have h2 := (h s d0).mp hc
        rw [hd] at h2
        exact absurd (Option.some.inj h2).symm hss
      · intro hc
        simp at hc
    · rw [alistLookup_erase_ne m2 hdd]
      exact h s d

theorem InvMaps_insert {m1 m2 : List (String × String)} (h : InvMaps m1 m2)
    {s d : String} (h1 : alistLookup s m1 = none) (h2 : alistLookup d m2 = none) :
    InvMaps (alistInsert s d m1) (alistInsert d s m2) := by
  intro s1 d1
  by_cases hss : s1 = s
  · rw [hss, alistLookup_insert_self]
    by_cases hdd : d1 = d
    · rw [hdd, alistLookup_insert_self]
      simp
    · rw [alistLookup_insert_ne s m2 hdd]
      constructor
      · intro hc
        exact absurd (Option.some.inj hc).symm hdd
      · intro hc
        have h3 := (h s d1).mpr hc
        rw [h1] at h3
        simp at h3
  · rw [alistLookup_insert_ne d m1 hss]
    by_cases hdd : d1 = d
    · rw [hdd, alistLookup_insert_self]
      constructor
      · intro hc
        have h3 := (h s1 d).mp hc
        rw [h2] at h3
        simp at h3
      · intro hc
        exact absurd (Option.some.inj hc).symm hss
    · rw [alistLookup_insert_ne s m2 hdd]
      exact h s1 d1

/-! ## Branch lemmas for `importSource` -/

theorem importSource_update_eq {m : Models} {source content oldId : String} {σ : Store}
    (hlk : alistLookup source σ.sourceToDocId = some oldId)
    (hne : oldId ≠ make_hash content "doc_") :
    importSource m source content σ =
      extract_entities m content (make_hash content "doc_")
        (embed_document m content (make_hash content "doc_")
          (add_document_maps source content (remove_document_by_id oldId σ))) := by
  simp [importSource, hlk, hne]

theorem importSource_skip_eq {m : Models} {source content : String} {σ : Store}
    (hlk : alistLookup source σ.sourceToDocId = some (make_hash content "doc_")) :
    importSource m source content σ = σ := by
  simp [importSource, hlk]

theorem importSource_maps_new {m : Models} {source content : String} {σ : Store}
    (hlk : alistLookup source σ.sourceToDocId = none) :
    (importSource m source content σ).sourceToDocId =
      alistInsert source (make_hash content "doc_") σ.sourceToDocId ∧
    (importSource m source content σ).docIdToSource =
      alistInsert (make_hash content "doc_") source σ.docIdToSource := by
  have hf := embed_document_frame m content (make_hash content "doc_")
    (add_document_maps source content σ)
  simp only [importSource, hlk]
  constructor
  · show (embed_document m content (make_hash content "doc_")
      (add_document_maps source content σ)).sourceToDocId = _
    rw [hf.1]
    rfl
  · show (embed_document m content (make_hash content "doc_")
      (add_document_maps source content σ)).docIdToSource = _
    rw [hf.2.1]
    rfl

theorem importSource_maps_update {m : Models} {source content oldId : String} {σ : Store}
    (hlk : alistLookup source σ.sourceToDocId = some oldId)
    (hne : oldId ≠ make_hash content "doc_") :
    (importSource m source content σ).sourceToDocId =
      alistInsert source (make_hash content "doc_")
        (remove_document_by_id oldId σ).sourceToDocId ∧
    (importSource m source content σ).docIdToSource =
      alistInsert (make_hash content "doc_") source
        (remove_document_by_id oldId σ).docIdToSource := by
  have hf := embed_document_frame m content (make_hash content "doc_")
    (add_document_maps source content (remove_document_by_id oldId σ))
  rw [importSource_update_eq hlk hne]
  constructor
  · show (embed_document m content (make_hash content "doc_")
      (add_document_maps source content (remove_document_by_id oldId σ))).sourceToDocId = _
    rw [hf.1]
    rfl
  · show (embed_document m content (make_hash content "doc_")
      (add_document_maps source content (remove_document_by_id oldId σ))).docIdToSource = _
    rw [hf.2.1]
    rfl

/-! ## MapInv preservation -/

theorem MapInv_remove (docId : String) (σ : Store) (h : MapInv σ) :
    MapInv (remove_document_by_id docId σ) := by
  cases h1 : alistLookup docId σ.docIdToSource with
  | some source =>
    obtain ⟨r1, r2⟩ := remove_maps_of_some h1
    unfold MapInv
    rw [r1, r2]
    exact InvMaps_erase h h1
  | none =>
    obtain ⟨r1, r2⟩ := remove_maps_of_none h1
    unfold MapInv
    rw [r1, r2]
    exact h

theorem MapInv_importSource (m : Models) (source content : String) (σ : Store) (h : MapInv σ)
    (hsafe : safeOp (Op.importSrc source content) σ = true) :
    MapInv (importSource m source content σ) := by
  cases hlk : alistLookup source σ.sourceToDocId with
  | none =>
    obtain ⟨e1, e2⟩ := @importSource_maps_new m source content σ hlk
    have hd : alistLookup (make_hash content "doc_") σ.docIdToSource = none := by
      cases hs2 : alistLookup (make_hash content "doc_") σ.docIdToSource with
      | none => rfl
      | some s' =>
        simp only [safeOp, hs2] at hsafe
        have hs' : s' = source := of_decide_eq_true hsafe
        rw [hs'] at hs2
        have hcontr := (h source (make_hash content "doc_")).mpr hs2
        rw [hlk] at hcontr
        simp at hcontr
    unfold MapInv
    rw [e1, e2]
    exact InvMaps_insert h hlk hd
  | some oldId =>
    by_cases heq : oldId = make_hash content "doc_"
    · rw [heq] at hlk
      rw [importSource_skip_eq hlk]
      exact h
    · obtain ⟨u1, u2⟩ := @importSource_maps_update m source content oldId σ hlk heq
      have hd0 : alistLookup oldId σ.docIdToSource = some source := (h source oldId).mp hlk
      obtain ⟨r1, r2⟩ := remove_maps_of_some hd0
      have hInvR : InvMaps (remove_document_by_id oldId σ).sourceToDocId
          (remove_document_by_id oldId σ).docIdToSource := by
        rw [r1, r2]
        exact InvMaps_erase h hd0
      have h1' : alistLookup source (remove_document_by_id oldId σ).sourceToDocId = none := by
        rw [r1]
        exact alistLookup_erase_self source _
      have h2' : alistLookup (make_hash content "doc_")
          (remove_document_by_id oldId σ).docIdToSource = none := by
        rw [r2, alistLookup_erase_ne _ (fun hh => heq hh.symm)]
        cases hs2 : alistLookup (make_hash content "doc_") σ.docIdToSource with
        | none => rfl
        | some s' =>
          simp only [safeOp, hs2] at hsafe
          have hs' : s' = source := of_decide_eq_true hsafe
          rw [hs'] at hs2
          have hcontr := (h source (make_hash content "doc_")).mpr hs2
          rw [hlk] at hcontr
          exact absurd (Option.some.inj hcontr) heq
      unfold MapInv
      rw [u1, u2]
      exact InvMaps_insert hInvR h1' h2'

theorem MapInv_applyOp (m : Models) (op : Op) (σ : Store) (h : MapInv σ)
    (hs : safeOp op σ = true) : MapInv (applyOp m op σ) := by
  cases op with
  | importSrc s c => exact MapInv_importSource m s c σ h hs
  | removeDoc d => exact MapInv_remove d σ h

theorem MapInv_applyOps (m : Models) :
    ∀ (ops : List Op) (σ : Store), MapInv σ → safeOps m ops σ = true →
      MapInv (applyOps m ops σ)
  | [], _, h, _ => h
  | op :: ops, σ, h, hs => by
    simp only [safeOps, Bool.and_eq_true] at hs
    exact MapInv_applyOps m ops _ (MapInv_applyOp m op σ h hs.1) hs.2

/-! ## Counting lemmas for the embedding loop -/

theorem embedLoop_vector_length (m : Models) (content docId : String) :
    ∀ (es : List String) (i : Nat) (σ : Store),
      (es.map (fun e => make_hash e "excerpt_id_")).Nodup →
      (∀ e' ∈ es, alistLookup (make_hash e' "excerpt_id_") σ.vectorDb = none) →
      (embedLoop m content docId es i σ).1.vectorDb.length = σ.vectorDb.length + es.length := by
  intro es
  induction es with
  | nil => intro i σ _ _; rfl
  | cons e es ih =>
    intro i σ hnd hfresh
    simp only [List.map_cons, List.nodup_cons] at hnd
    have hfresh0 : alistLookup (make_hash e "excerpt_id_") σ.vectorDb = none :=
      hfresh e (by simp)
    have hstep : (writeExcerpt docId i e (m.summary content e)
        (m.embedding (e ++ "\n\n" ++ m.summary content e)) m.now σ).vectorDb =
        alistInsert (make_hash e "excerpt_id_")
          { vector := m.embedding (e ++ "\n\n" ++ m.summary content e), doc_id := docId,
            inserted_at := m.now } σ.vectorDb := rfl
    have hfreshrest : ∀ e' ∈ es, alistLookup (make_hash e' "excerpt_id_")
        (writeExcerpt docId i e (m.summary content e)
          (m.embedding (e ++ "\n\n" ++ m.summary content e)) m.now σ).vectorDb = none := by
      intro e' he'
      rw [hstep, alistLookup_insert_ne _ _
        (fun hh => hnd.1 (by rw [← hh]; exact List.mem_map_of_mem _ he'))]
      exact hfresh e' (List.mem_cons_of_mem _ he')
    have hrec := ih (i + 1) (writeExcerpt docId i e (m.summary content e)
      (m.embedding (e ++ "\n\n" ++ m.summary content e)) m.now σ) hnd.2 hfreshrest
    have hlen : (writeExcerpt docId i e (m.summary content e)
        (m.embedding (e ++ "\n\n" ++ m.summary content e)) m.now σ).vectorDb.length =
        σ.vectorDb.length + 1 := by
      rw [hstep]
      exact length_alistInsert_of_lookup_none _ hfresh0
    show (embedLoop m content docId es (i + 1) (writeExcerpt docId i e (m.summary content e)
      (m.embedding (e ++ "\n\n" ++ m.summary content e)) m.now σ)).1.vectorDb.length = _
    rw [hrec, hlen]
    simp [Nat.add_assoc, Nat.add_comm 1 es.length]

theorem embed_document_vector_length_empty (m : Models) (content docId : String)
    (hnd : ((excerptsOf content).map (fun e => make_hash e "excerpt_id_")).Nodup) :
    (embed_document m content docId emptyStore).vectorDb.length =
      (excerptsOf content).length := by
  show (embedLoop m content docId (excerptsOf content) 0 emptyStore).1.vectorDb.length = _
  rw [embedLoop_vector_length m content docId (excerptsOf content) 0 emptyStore hnd
    (fun e' _ => rfl)]
  simp [emptyStore]

/-! ## Vector-query lemma -/

theorem memStr_vectorQuery_of_lookup_none {e : String} {σ : Store}
    (keep : String → VectorRecord → Bool) (topK : Nat)
    (h : alistLookup e σ.vectorDb = none) :
    memStr e (vectorQuery keep topK σ) = false := by
  apply memStr_eq_false_of_not_mem
  intro hmem
  have h1 : e ∈ (σ.vectorDb.filter (fun p => keep p.1 p.2)).map Prod.fst :=
    List.mem_of_mem_take hmem
  obtain ⟨p, hp, hpe⟩ := List.mem_map.mp h1
  have h2 : p ∈ σ.vectorDb := List.mem_of_mem_filter hp
  exact (not_mem_keys_of_alistLookup_eq_none h)
    (hpe ▸ List.mem_map_of_mem Prod.fst h2)

/-! ## Lemmas for the fallible embedding loop -/

theorem loopStateOf_docIdToExcerptIds (m : ModelsE) (content docId : String) :
    ∀ (es : List String) (i : Nat) (σ : Store),
      (loopStateOf (embedLoopE m content docId es i σ)).docIdToExcerptIds =
        σ.docIdToExcerptIds := by
  intro es
  induction es with
  | nil => intro i σ; rfl
  | cons e es ih =>
    intro i σ
    cases hs : m.summary content e with
    | none => simp [embedLoopE, hs, loopStateOf]
    | some s =>
      cases he : m.embedding (e ++ "\n\n" ++ s) with
      | none => simp [embedLoopE, hs, he, loopStateOf]
      | some v =>
        have hrec := ih (i + 1) (writeExcerpt docId i e s v m.now σ)
        cases hr : embedLoopE m content docId es (i + 1) (writeExcerpt docId i e s v m.now σ) with
        | ok p =>
          obtain ⟨σ', ids⟩ := p
          rw [hr] at hrec
          simp only [embedLoopE, hs, he, hr, loopStateOf]
          simpa [loopStateOf, writeExcerpt] using hrec
        | error σ' =>
          rw [hr] at hrec
          simp only [embedLoopE, hs, he, hr, loopStateOf]
          simpa [loopStateOf, writeExcerpt] using hrec

theorem loopStateOf_preserves_isSome (m : ModelsE) (content docId key : String) :
    ∀ (es : List String) (i : Nat) (σ : Store),
      ((alistLookup key σ.excerptDb).isSome = true →
        (alistLookup key (loopStateOf (embedLoopE m content docId es i σ)).excerptDb).isSome
          = true) ∧
      ((alistLookup key σ.vectorDb).isSome = true →
        (alistLookup key (loopStateOf (embedLoopE m content docId es i σ)).vectorDb).isSome
          = true) := by
  intro es
  induction es with
  | nil => intro i σ; exact ⟨fun h => h, fun h => h⟩
  | cons e es ih =>
    intro i σ
    cases hs : m.summary content e with
    | none =>
      constructor <;> intro h <;> simpa [embedLoopE, hs, loopStateOf] using h
    | some s =>
      cases he : m.embedding (e ++ "\n\n" ++ s) with
      | none =>
        constructor <;> intro h <;> simpa [embedLoopE, hs, he, loopStateOf] using h
      | some v =>
        have hrec := ih (i + 1) (writeExcerpt docId i e s v m.now σ)
        have hwE : (alistLookup key σ.excerptDb).isSome = true →
            (alistLookup key (writeExcerpt docId i e s v m.now σ).excerptDb).isSome = true := by
          intro h
          exact alistLookup_isSome_insert _ _ h
        have hwV : (alistLookup key σ.vectorDb).isSome = true →
            (alistLookup key (writeExcerpt docId i e s v m.now σ).vectorDb).isSome = true := by
          intro h
          exact alistLookup_isSome_insert _ _ h
        cases hr : embedLoopE m content docId es (i + 1) (writeExcerpt docId i e s v m.now σ) with
        | ok p =>
          obtain ⟨σ', ids⟩ := p
          rw [hr] at hrec
          constructor <;> intro h <;>
            simp only [embedLoopE, hs, he, hr, loopStateOf]
          · exact hrec.1 (hwE h)
          · exact hrec.2 (hwV h)
        | error σ' =>
          rw [hr] at hrec
          constructor <;> intro h <;>
            simp only [embedLoopE, hs, he, hr, loopStateOf]
          · exact hrec.1 (hwE h)
          · exact hrec.2 (hwV h)

theorem loopStateOf_writes (m : ModelsE) (content docId : String) :
    ∀ (es : List String) (i : Nat) (σ : Store) (e : String), e ∈ es →
      (∀ e' ∈ es, excerptCallOk m content e' = true) →
      (alistLookup (make_hash e "excerpt_id_")
        (loopStateOf (embedLoopE m content docId es i σ)).excerptDb).isSome = true ∧
      (alistLookup (make_hash e "excerpt_id_")
        (loopStateOf (embedLoopE m content docId es i σ)).vectorDb).isSome = true := by
  intro es
  induction es with
  | nil =>
    intro i σ e he _
    simp at he
  | cons e0 es ih =>
    intro i σ e he hok
    have hok0 := hok e0 (by simp)
    unfold excerptCallOk at hok0
    cases hs : m.summary content e0 with
    | none => simp [hs] at hok0
    | some s =>
      simp only [hs] at hok0
      cases hemb : m.embedding (e0 ++ "\n\n" ++ s) with
      | none => simp [hemb] at hok0
      | some v =>
        have hpres := loopStateOf_preserves_isSome m content docId
          (make_hash e "excerpt_id_") es (i + 1) (writeExcerpt docId i e0 s v m.now σ)
        rcases List.mem_cons.mp he with he0 | hemem
        · have hE : (alistLookup (make_hash e "excerpt_id_")
              (writeExcerpt docId i e0 s v m.now σ).excerptDb).isSome = true := by
            rw [he0]
            exact alistLookup_insert_self_isSome _ _ _
          have hV : (alistLookup (make_hash e "excerpt_id_")
              (writeExcerpt docId i e0 s v m.now σ).vectorDb).isSome = true := by
            rw [he0]
            exact alistLookup_insert_self_isSome _ _ _
          cases hr : embedLoopE m content docId es (i + 1)
              (writeExcerpt docId i e0 s v m.now σ) with
          | ok p =>
            obtain ⟨σ', ids⟩ := p
            rw [hr] at hpres
            constructor <;> simp only [embedLoopE, hs, hemb, hr, loopStateOf]
            · exact hpres.1 hE
            · exact hpres.2 hV
          | error σ' =>
            rw [hr] at hpres
            constructor <;> simp only [embedLoopE, hs, hemb, hr, loopStateOf]
            · exact hpres.1 hE
            · exact hpres.2 hV
        · have hrec := ih (i + 1) (writeExcerpt docId i e0 s v m.now σ) e hemem
            (fun e' he' => hok e' (List.mem_cons_of_mem _ he'))
          cases hr : embedLoopE m content docId es (i + 1)
              (writeExcerpt docId i e0 s v m.now σ) with
          | ok p =>
            obtain ⟨σ', ids⟩ := p
            rw [hr] at hrec
            constructor <;> simp only [embedLoopE, hs, hemb, hr, loopStateOf]
            · exact hrec.1
            · exact hrec.2
          | error σ' =>
            rw [hr] at hrec
            constructor <;> simp only [embedLoopE, hs, hemb, hr, loopStateOf]
            · exact hrec.1
            · exact hrec.2

theorem embedLoopE_fails_at (m : ModelsE) (content docId : String) :
    ∀ (k : Nat) (es : List String) (i : Nat) (σ : Store),
      k < es.length →
      (∀ e ∈ es.take k, excerptCallOk m content e = true) →
      excerptCallOk m content (es.getD k "") = false →
      embedLoopE m content docId es i σ =
        .error (loopStateOf (embedLoopE m content docId (es.take k) i σ)) := by
  intro k
  induction k with
  | zero =>
    intro es i σ hk hpre hfail
    cases es with
    | nil => simp at hk
    | cons e es' =>
      simp only [List.getD_cons_zero] at hfail
      unfold excerptCallOk at hfail
      cases hs : m.summary content e with
      | none => simp [embedLoopE, hs, loopStateOf]
      | some s =>
        simp only [hs] at hfail
        cases he : m.embedding (e ++ "\n\n" ++ s) with
        | none => simp [embedLoopE, hs, he, loopStateOf]
        | some v =>
          simp [he] at hfail
  | succ k ih =>
    intro es i σ hk hpre hfail
    cases es with
    | nil => simp at hk
    | cons e es' =>
      have hok := hpre e (by simp)
      unfold excerptCallOk at hok
      cases hs : m.summary content e with
      | none => simp [hs] at hok
      | some s =>
        simp only [hs] at hok
        cases he : m.embedding (e ++ "\n\n" ++ s) with
        | none => simp [he] at hok
        | some v =>
          have hrec := ih es' (i + 1) (writeExcerpt docId i e s v m.now σ)
            (by simpa using hk)
            (fun e' he' => hpre e' (by simp [he']))
            (by simpa using hfail)
          simp only [List.take_succ_cons, embedLoopE, hs, he, hrec]
          cases hrt : embedLoopE m content docId (es'.take k) (i + 1)
              (writeExcerpt docId i e s v m.now σ) with
          | ok p =>
            obtain ⟨σ'', ids⟩ := p
            simp [loopStateOf, hrt]
          | error σ'' =>
            simp [loopStateOf, hrt]

/-! ## Malformed-record lemmas -/

theorem applyFields_malformed {g : Graph} :
    ∀ {fields : List String}, malformedFields fields = true → applyFields g fields = g
  | [], _ => rfl
  | f0 :: rest, h => by
    simp only [malformedFields] at h
    simp only [applyFields]
    by_cases h1 : strToLower f0 = "\"entity\""
    · rw [if_pos h1] at h ⊢
      have hlen : (f0 :: rest).length < 4 := of_decide_eq_true h
      simp only [List.length_cons] at hlen
      rcases rest with _ | ⟨a, _ | ⟨b, _ | ⟨c, t⟩⟩⟩
      · rfl
      · rfl
      · rfl
      · exfalso
        simp only [List.length_cons] at hlen
        omega
    · rw [if_neg h1] at h ⊢
      by_cases h2 : strToLower f0 = "\"relationship\""
      · rw [if_pos h2] at h ⊢
        have hlen : (f0 :: rest).length < 6 := of_decide_eq_true h
        simp only [List.length_cons] at hlen
        rcases rest with _ | ⟨a, _ | ⟨b, _ | ⟨c, _ | ⟨d, _ | ⟨e, t⟩⟩⟩⟩⟩
        · rfl
        · rfl
        · rfl
        · rfl
        · rfl
        · exfalso
          simp only [List.length_cons] at hlen
          omega
      · rw [if_neg h2] at h ⊢
        by_cases h3 : strToLower f0 = "\"content_keywords\""
        · rw [if_pos h3] at h ⊢
          have hlen : (f0 :: rest).length < 2 := of_decide_eq_true h
          simp only [List.length_cons] at hlen
          rcases rest with _ | ⟨a, t⟩
          · rfl
          · exfalso
            simp only [List.length_cons] at hlen
            omega
        · rw [if_neg h3] at h ⊢

theorem applyRecord_malformed {g : Graph} {r : String} (h : malformedRecord r = true) :
    applyRecord g r = g :=
  applyFields_malformed h

theorem applyRecords_append (l1 l2 : List String) (g : Graph) :
    applyRecords (l1 ++ l2) g = applyRecords l2 (applyRecords l1 g) := by
  simp [applyRecords, List.foldl_append]

/-! ## Concrete instantiations used by the witnesses and counterexamples -/

/-- A total model assignment whose calls all return fixed trivial values. -/
def trivialModels : Models :=
  { summary := fun _ _ => "", embedding := fun _ => [], extraction := fun _ => "", now := 0 }

/-- The extraction response of end-to-end scenario B. -/
def scenarioBResponse : String :=
  "(\"entity\"<|>\"Rabbit\"<|>\"Animal\"<|>\"A small mammal\")+|+(\"entity\"<|>\"Carrot\"<|>\"Food\"<|>\"A root vegetable\")+|+(\"relationship\"<|>\"Rabbit\"<|>\"Carrot\"<|>\"eats\"<|>\"diet\"<|>\"0.9\")<|COMPLETE|>"

/-- A model assignment whose extraction call returns the scenario-B
response. -/
def scenarioBModels : Models :=
  { summary := fun _ _ => "", embedding := fun _ => [],
    extraction := fun _ => scenarioBResponse, now := 0 }

/-- 3800 identical characters: its first two default chunk windows carry
identical text and therefore identical excerpt ids. -/
def content3800 : String :=
  ⟨List.replicate 3800 'a'⟩

/-- 1801 identical characters: exactly two default chunk windows, the
second one a single character long. -/
def content1801 : String :=
  ⟨List.replicate 1801 'a'⟩

/-- A fallible model assignment that fails exactly on a one-character
excerpt. -/
def failingModels : ModelsE :=
  { summary := fun _ e => if e.length ≤ 1 then none else some "s",
    embedding := fun _ => some [], now := 0 }

theorem failingModels_summary_eq (c e : String) :
    failingModels.summary c e =
      if e.length ≤ 1 then (none : Option String) else some "s" := rfl

/-! ## Symbolic evaluation helpers for the long constant contents -/

theorem strLength_mk (l : List Char) : (⟨l⟩ : String).length = l.length := rfl

theorem strLength_append (s : String) (b : List Char) :
    (s ++ (⟨b⟩ : String)).length = s.length + b.length := by
  obtain ⟨a⟩ := s
  show (a ++ b).length = a.length + b.length
  simp

theorem chunkFuel_step {content : String} {n step fuel i : Nat} (h : i < content.length) :
    chunkFuel content n step (fuel + 1) i =
      strSlice content i n :: chunkFuel content n step fuel (i + step) := by
  simp [chunkFuel, h]

theorem chunkFuel_stop {content : String} {n step fuel i : Nat} (h : ¬ i < content.length) :
    chunkFuel content n step (fuel + 1) i = [] := by
  simp [chunkFuel, h]

theorem content3800_length : content3800.length = 3800 := by
  show (List.replicate 3800 'a').length = 3800
  rw [List.length_replicate]

theorem content1801_length : content1801.length = 1801 := by
  show (List.replicate 1801 'a').length = 1801
  rw [List.length_replicate]

theorem excerptsOf_content3800 :
    excerptsOf content3800 =
      [⟨List.replicate 2000 'a'⟩, ⟨List.replicate 2000 'a'⟩, ⟨List.replicate 200 'a'⟩] := by
  rw [excerptsOf_eq]
  unfold chunkLoop
  rw [content3800_length]
  rw [@chunkFuel_step content3800 2000 1800 3800 0 (by rw [content3800_length]; norm_num)]
  rw [show (3800 : Nat) = 3799 + 1 from rfl,
    @chunkFuel_step content3800 2000 1800 3799 (0 + 1800)
      (by rw [content3800_length]; norm_num)]
  rw [show (3799 : Nat) = 3798 + 1 from rfl,
    @chunkFuel_step content3800 2000 1800 3798 (0 + 1800 + 1800)
      (by rw [content3800_length]; norm_num)]
  rw [show (3798 : Nat) = 3797 + 1 from rfl,
    chunkFuel_stop (by rw [content3800_length]; norm_num)]
  have hs : ∀ i len : Nat, strSlice content3800 i len =
      ⟨List.replicate (min len (3800 - i)) 'a'⟩ := by
    intro i len
    show (⟨((List.replicate 3800 'a').drop i).take len⟩ : String) = _
    rw [List.drop_replicate, List.take_replicate]
  rw [hs, hs, hs]
  norm_num

theorem excerptsOf_content1801 :
    excerptsOf content1801 =
      [⟨List.replicate 1801 'a'⟩, ⟨List.replicate 1 'a'⟩] := by
  rw [excerptsOf_eq]
  unfold chunkLoop
  rw [content1801_length]
  rw [@chunkFuel_step content1801 2000 1800 1801 0 (by rw [content1801_length]; norm_num)]
  rw [show (1801 : Nat) = 1800 + 1 from rfl,
    @chunkFuel_step content1801 2000 1800 1800 (0 + 1800)
      (by rw [content1801_length]; norm_num)]
  rw [show (1800 : Nat) = 1799 + 1 from rfl,
    chunkFuel_stop (by rw [content1801_length]; norm_num)]
  have hs : ∀ i len : Nat, strSlice content1801 i len =
      ⟨List.replicate (min len (1801 - i)) 'a'⟩ := by
    intro i len
    show (⟨((List.replicate 1801 'a').drop i).take len⟩ : String) = _
    rw [List.drop_replicate, List.take_replicate]
  rw [hs, hs]
  norm_num

/-! ## Definitional projections of the embedding loop -/

theorem embedLoop_nil_fst (m : Models) (content docId : String) (i : Nat) (σ : Store) :
    (embedLoop m content docId [] i σ).1 = σ := rfl

theorem embedLoop_cons_fst (m : Models) (content docId e : String) (es : List String)
    (i : Nat) (σ : Store) :
    (embedLoop m content docId (e :: es) i σ).1 =
      (embedLoop m content docId es (i + 1)
        (writeExcerpt docId i e (m.summary content e)
          (m.embedding (e ++ "\n\n" ++ m.summary content e)) m.now σ)).1 := rfl

theorem embed_document_vectorDb_eq (m : Models) (content docId : String) (σ : Store) :
    (embed_document m content docId σ).vectorDb =
      (embedLoop m content docId (excerptsOf content) 0 σ).1.vectorDb := rfl

theorem writeExcerpt_vectorDb (docId : String) (i : Nat) (e s : String) (v : List Int)
    (now : Nat) (σ : Store) :
    (writeExcerpt docId i e s v now σ).vectorDb =
      alistInsert (make_hash e "excerpt_id_")
        { vector := v, doc_id := docId, inserted_at := now } σ.vectorDb := rfl

theorem length_insert_insert_insert {α : Type} (k1 k2 : String) (v0 v1 v2 : α)
    (hne : k2 ≠ k1) :
    (alistInsert k2 v2 (alistInsert k1 v1 (alistInsert k1 v0 ([] : List (String × α))))).length
      = 2 := by
  have h1 : alistInsert k1 v0 ([] : List (String × α)) = [(k1, v0)] := rfl
  have h2 : alistInsert k1 v1 [(k1, v0)] = [(k1, v1)] := by
    simp [alistInsert]
  have h3 : alistInsert k2 v2 [(k1, v1)] = [(k1, v1), (k2, v2)] := by
    simp [alistInsert, Ne.symm hne]
  rw [h1, h2, h3]
  rfl

/-! ## Claim theorems -/

/-- C1: for a source already present in the source→doc-id map whose new
content hash differs from the stored doc id, `import_documents` first runs
`remove_document_by_id` on the old doc id (removing its excerpt records,
vector entries, doc→excerpt-ids entry and both id-map entries), then
records the new maps and indexes the new content; afterwards the
source→doc-id map sends the source to the new doc id, and the old doc id
is absent from both doc-id-keyed maps. -/
theorem C1_update_replaces_document (m : Models) (source content oldId : String) (σ : Store)
    (h : alistLookup source σ.sourceToDocId = some oldId)
    (hne : oldId ≠ make_hash content "doc_") :
    importSource m source content σ =
      extract_entities m content (make_hash content "doc_")
        (embed_document m content (make_hash content "doc_")
          (add_document_maps source content (remove_document_by_id oldId σ))) ∧
    alistLookup source (importSource m source content σ).sourceToDocId =
      some (make_hash content "doc_") ∧
    alistLookup oldId (importSource m source content σ).docIdToSource = none ∧
    alistLookup oldId (importSource m source content σ).docIdToExcerptIds = none := by
  refine ⟨importSource_update_eq h hne, ?_, ?_, ?_⟩
  · rw [(importSource_maps_update h hne).1]
    exact alistLookup_insert_self _ _ _
  · rw [(importSource_maps_update h hne).2, alistLookup_insert_ne _ _ hne]
    exact remove_docIdToSource_self oldId σ
  · rw [importSource_update_eq h hne]
    show alistLookup oldId (embed_document m content (make_hash content "doc_")
      (add_document_maps source content (remove_document_by_id oldId σ))).docIdToExcerptIds
      = none
    rw [embed_document_docIdToExcerptIds_other m content (make_hash content "doc_") oldId
      (add_document_maps source content (remove_document_by_id oldId σ)) hne]
    exact remove_docIdToExcerptIds_self oldId σ

/-- Witness for C1 at a concrete update: source "a" with content "x" is
brought in first, then reimported with content "y". -/
theorem C1_update_replaces_document_witness :
    importSource trivialModels "a" "y" (importSource trivialModels "a" "x" emptyStore) =
      extract_entities trivialModels "y" (make_hash "y" "doc_")
        (embed_document trivialModels "y" (make_hash "y" "doc_")
          (add_document_maps "a" "y"
            (remove_document_by_id "doc_x" (importSource trivialModels "a" "x" emptyStore)))) ∧
    alistLookup "a" (importSource trivialModels "a" "y"
      (importSource trivialModels "a" "x" emptyStore)).sourceToDocId =
        some (make_hash "y" "doc_") ∧
    alistLookup "doc_x" (importSource trivialModels "a" "y"
      (importSource trivialModels "a" "x" emptyStore)).docIdToSource = none ∧
    alistLookup "doc_x" (importSource trivialModels "a" "y"
      (importSource trivialModels "a" "x" emptyStore)).docIdToExcerptIds = none :=
  C1_update_replaces_document trivialModels "a" "y" "doc_x"
    (importSource trivialModels "a" "x" emptyStore) (by decide) (by decide)

/-- C2: importing a source again while its content hash equals the stored
doc id is a no-op: the state after `import_documents` over that source is
unchanged — no new document id, no map change, no excerpt record, no
vector-index change. -/
theorem C2_unchanged_source_noop (m : Models) (source : String)
    (readFile : String → String) (σ : Store)
    (h : alistLookup source σ.sourceToDocId = some (make_hash (readFile source) "doc_")) :
    import_documents m [source] readFile σ = σ := by
  show importSource m source (readFile source) σ = σ
  simp [importSource, h]

/-- Witness for C2: importing source "a" with content "x" twice. -/
theorem C2_unchanged_source_noop_witness :
    import_documents trivialModels ["a"] (fun _ => "x")
        (import_documents trivialModels ["a"] (fun _ => "x") emptyStore) =
      import_documents trivialModels ["a"] (fun _ => "x") emptyStore :=
  C2_unchanged_source_noop trivialModels "a" (fun _ => "x")
    (import_documents trivialModels ["a"] (fun _ => "x") emptyStore) (by decide)

/-- C3: `remove_document_by_id` deletes the doc id's entries from the
doc-id→source, source→doc-id, and doc-id→excerpt-ids maps, deletes every
listed excerpt record and vector-index entry, after which no vector query
returns those excerpt ids; on a state where the doc id's entries are
already absent the call is the identity (no error). -/
theorem C3_remove_document (σ : Store) (docId source e : String) (ids : List String)
    (keep : String → VectorRecord → Bool) (topK : Nat)
    (hs : alistLookup docId σ.docIdToSource = some source)
    (hids : alistLookup docId σ.docIdToExcerptIds = some ids)
    (he : e ∈ ids) :
    alistLookup docId (remove_document_by_id docId σ).docIdToSource = none ∧
    alistLookup source (remove_document_by_id docId σ).sourceToDocId = none ∧
    alistLookup docId (remove_document_by_id docId σ).docIdToExcerptIds = none ∧
    alistLookup e (remove_document_by_id docId σ).excerptDb = none ∧
    alistLookup e (remove_document_by_id docId σ).vectorDb = none ∧
    memStr e (vectorQuery keep topK (remove_document_by_id docId σ)) = false ∧
    remove_document_by_id docId
        { σ with docIdToSource := alistErase docId σ.docIdToSource,
                 docIdToExcerptIds := alistErase docId σ.docIdToExcerptIds } =
      { σ with docIdToSource := alistErase docId σ.docIdToSource,
               docIdToExcerptIds := alistErase docId σ.docIdToExcerptIds } := by
  have hvec : alistLookup e (remove_document_by_id docId σ).vectorDb = none := by
    simp only [remove_document_by_id, hs, hids]
    exact alistLookup_foldl_erase_of_mem ids _ he
  have hexc : alistLookup e (remove_document_by_id docId σ).excerptDb = none := by
    simp only [remove_document_by_id, hs, hids]
    exact alistLookup_foldl_erase_of_mem ids _ he
  have hsrc : alistLookup source (remove_document_by_id docId σ).sourceToDocId = none := by
    rw [(remove_maps_of_some hs).1]
    exact alistLookup_erase_self source _
  refine ⟨remove_docIdToSource_self docId σ, hsrc, remove_docIdToExcerptIds_self docId σ,
    hexc, hvec, memStr_vectorQuery_of_lookup_none keep topK hvec, ?_⟩
  exact remove_noop docId _ (alistLookup_erase_self docId σ.docIdToSource)
    (alistLookup_erase_self docId σ.docIdToExcerptIds)

/-- Witness for C3 on the store obtained by importing source "a" with
content "xy". -/
theorem C3_remove_document_witness :
    alistLookup "doc_xy" (remove_document_by_id "doc_xy"
      (importSource trivialModels "a" "xy" emptyStore)).docIdToSource = none ∧
    alistLookup "a" (remove_document_by_id "doc_xy"
      (importSource trivialModels "a" "xy" emptyStore)).sourceToDocId = none ∧
    alistLookup "doc_xy" (remove_document_by_id "doc_xy"
      (importSource trivialModels "a" "xy" emptyStore)).docIdToExcerptIds = none ∧
    alistLookup "excerpt_id_xy" (remove_document_by_id "doc_xy"
      (importSource trivialModels "a" "xy" emptyStore)).excerptDb = none ∧
    alistLookup "excerpt_id_xy" (remove_document_by_id "doc_xy"
      (importSource trivialModels "a" "xy" emptyStore)).vectorDb = none ∧
    memStr "excerpt_id_xy" (vectorQuery (fun _ _ => true) 5 (remove_document_by_id "doc_xy"
      (importSource trivialModels "a" "xy" emptyStore))) = false ∧
    remove_document_by_id "doc_xy"
        { importSource trivialModels "a" "xy" emptyStore with
          docIdToSource := alistErase "doc_xy"
            (importSource trivialModels "a" "xy" emptyStore).docIdToSource,
          docIdToExcerptIds := alistErase "doc_xy"
            (importSource trivialModels "a" "xy" emptyStore).docIdToExcerptIds } =
      { importSource trivialModels "a" "xy" emptyStore with
        docIdToSource := alistErase "doc_xy"
          (importSource trivialModels "a" "xy" emptyStore).docIdToSource,
        docIdToExcerptIds := alistErase "doc_xy"
          (importSource trivialModels "a" "xy" emptyStore).docIdToExcerptIds } :=
  C3_remove_document (importSource trivialModels "a" "xy" emptyStore) "doc_xy" "a"
    "excerpt_id_xy" ["excerpt_id_xy"] (fun _ _ => true) 5 (by decide) (by decide) (by decide)

/-- C4: the scenario-B extraction response, processed by the extraction
pass over a single-excerpt document starting from the empty graph, yields
exactly the two entity nodes (Rabbit, Carrot) and one directed edge from
the Rabbit node to the Carrot node whose weight attribute is the verbatim
model text for 0.9. -/
theorem C4_scenarioB_extraction :
    extractGraph scenarioBModels "Rabbits eat carrots." Graph.empty =
      { nodes := [("\"Rabbit\"",
                    some { category := "\"Animal\"", description := "\"A small mammal\"" }),
                  ("\"Carrot\"",
                    some { category := "\"Food\"", description := "\"A root vegetable\"" })],
        edges := [(("\"Rabbit\"", "\"Carrot\""),
                   { description := "\"eats\"", keywords := "\"diet\"", weight := "\"0.9\"" })],
        contentKeywords := none } ∧
    (extractGraph scenarioBModels "Rabbits eat carrots." Graph.empty).nodes.length = 2 ∧
    (extractGraph scenarioBModels "Rabbits eat carrots." Graph.empty).edges.length = 1 := by
  refine ⟨?_, ?_, ?_⟩ <;> decide

/-- C5: a record whose field count is below its discriminator's minimum,
or whose discriminator is unknown, leaves the graph unchanged, and
dropping it from a batch does not change the batch's effect — every
preceding and subsequent record is applied exactly as without it. -/
theorem C5_malformed_record_dropped (g : Graph) (pre post : List String) (r : String)
    (h : malformedRecord r = true) :
    applyRecord g r = g ∧
    applyRecords (pre ++ r :: post) g = applyRecords (pre ++ post) g := by
  refine ⟨applyRecord_malformed h, ?_⟩
  rw [applyRecords_append, applyRecords_append]
  show applyRecords post (applyRecord (applyRecords pre g) r) = _
  rw [applyRecord_malformed h]

/-- Witness for C5: an entity record with two fields, between two
well-formed records. -/
theorem C5_malformed_record_dropped_witness :
    applyRecord Graph.empty "\"entity\"<|>\"X\"" = Graph.empty ∧
    applyRecords (["\"entity\"<|>\"A\"<|>\"T\"<|>\"D\""] ++
        "\"entity\"<|>\"X\"" :: ["\"content_keywords\"<|>\"k\""]) Graph.empty =
      applyRecords (["\"entity\"<|>\"A\"<|>\"T\"<|>\"D\""] ++
        ["\"content_keywords\"<|>\"k\""]) Graph.empty :=
  C5_malformed_record_dropped Graph.empty ["\"entity\"<|>\"A\"<|>\"T\"<|>\"D\""]
    ["\"content_keywords\"<|>\"k\""] "\"entity\"<|>\"X\"" (by decide)

/-- C6 (amended): for `overlap < n`, `get_excerpts` succeeds and returns
exactly `⌈len/step⌉` excerpts, the `i`-th starting at offset `i·step` with
length `min n (len − i·step)`; indexing a document from a fresh store
writes one doc→excerpt-ids entry listing the excerpt ids in chunk order,
and — provided the excerpt ids are pairwise distinct — exactly one
vector-index record per excerpt (excerpts with identical text share one
upserted record, see the counterexample). -/
theorem C6_chunking_and_indexing (content : String) (n overlap i : Nat) (m : Models)
    (docId : String) (h : overlap < n)
    (hi : i < (content.length + (n - overlap) - 1) / (n - overlap))
    (hnodup : ((excerptsOf content).map (fun e => make_hash e "excerpt_id_")).Nodup) :
    get_excerpts content n overlap = .ok (chunkLoop content n (n - overlap)) ∧
    (chunkLoop content n (n - overlap)).length =
      (content.length + (n - overlap) - 1) / (n - overlap) ∧
    (chunkLoop content n (n - overlap)).getD i "" =
      strSlice content (i * (n - overlap)) n ∧
    ((chunkLoop content n (n - overlap)).getD i "").length =
      min n (content.length - i * (n - overlap)) ∧
    alistLookup docId (embed_document m content docId emptyStore).docIdToExcerptIds =
      some ((excerptsOf content).map (fun e => make_hash e "excerpt_id_")) ∧
    (embed_document m content docId emptyStore).vectorDb.length =
      (excerptsOf content).length := by
  have hstep : 0 < n - overlap := by omega
  have hlen0 : 0 < content.length := by
    by_contra h0
    have hz : content.length = 0 := by omega
    rw [hz] at hi
    rw [Nat.div_eq_of_lt (by omega)] at hi
    exact absurd hi (by omega)
  have hj : i * (n - overlap) < content.length := by
    have h1 : (i + 1) * (n - overlap) ≤
        ((content.length + (n - overlap) - 1) / (n - overlap)) * (n - overlap) :=
      Nat.mul_le_mul_right _ (Nat.succ_le_of_lt hi)
    have h2 : ((content.length + (n - overlap) - 1) / (n - overlap)) * (n - overlap) ≤
        content.length + (n - overlap) - 1 := Nat.div_mul_le_self _ _
    have h3 : (i + 1) * (n - overlap) = i * (n - overlap) + (n - overlap) := by ring
    omega
  have hgd : (chunkLoop content n (n - overlap)).getD i "" =
      strSlice content (i * (n - overlap)) n := chunkLoop_getD hstep hj
  refine ⟨?_, chunkLoop_length hstep, hgd, ?_, ?_, ?_⟩
  · rw [get_excerpts, if_neg (by omega), if_neg (by omega)]
  · rw [hgd, strSlice_length]
  · exact embed_document_docIdToExcerptIds m content docId emptyStore
  · exact embed_document_vector_length_empty m content docId hnodup

/-- Witness for C6: the two-character content "hi" with window 5 and
overlap 2 has one excerpt, and indexing it writes one vector record and
the singleton excerpt-ids entry. -/
theorem C6_chunking_and_indexing_witness :
    get_excerpts "hi" 5 2 = .ok (chunkLoop "hi" 5 (5 - 2)) ∧
    (chunkLoop "hi" 5 (5 - 2)).length = ("hi".length + (5 - 2) - 1) / (5 - 2) ∧
    (chunkLoop "hi" 5 (5 - 2)).getD 0 "" = strSlice "hi" (0 * (5 - 2)) 5 ∧
    ((chunkLoop "hi" 5 (5 - 2)).getD 0 "").length = min 5 ("hi".length - 0 * (5 - 2)) ∧
    alistLookup "d" (embed_document trivialModels "hi" "d" emptyStore).docIdToExcerptIds =
      some ((excerptsOf "hi").map (fun e => make_hash e "excerpt_id_")) ∧
    (embed_document trivialModels "hi" "d" emptyStore).vectorDb.length =
      (excerptsOf "hi").length :=
  C6_chunking_and_indexing "hi" 5 2 0 trivialModels "d" (by decide) (by decide) (by decide)

/-- C6 counterexample: with the default window 2000 / overlap 200, a
3800-character constant content yields three excerpts whose first two have
identical text and therefore the same excerpt id, so the vector index ends
up with two records — not one record per excerpt. -/
theorem C6_counterexample :
    (excerptsOf content3800).length = 3 ∧
    (embed_document trivialModels content3800 "doc_dup" emptyStore).vectorDb.length = 2 := by
  constructor
  · rw [excerptsOf_content3800]
    rfl
  · have hne : make_hash (⟨List.replicate 200 'a'⟩ : String) "excerpt_id_" ≠
        make_hash (⟨List.replicate 2000 'a'⟩ : String) "excerpt_id_" := by
      intro hcontr
      have hl := congrArg String.length hcontr
      simp only [make_hash, strLength_append, List.length_replicate] at hl
      omega
    rw [embed_document_vectorDb_eq, excerptsOf_content3800, embedLoop_cons_fst,
      embedLoop_cons_fst, embedLoop_cons_fst, embedLoop_nil_fst, writeExcerpt_vectorDb,
      writeExcerpt_vectorDb, writeExcerpt_vectorDb]
    exact length_insert_insert_insert _ _ _ _ _ hne

/-- C7: the source places the degenerate chunk parameters behind Python
`range` semantics: `overlap > windowSize` (negative step) silently returns
an empty excerpt list instead of rejecting the call, and only the exact
`overlap = windowSize` case dies with `range`'s `ValueError`; there is no
configuration check. The claim's required rejection is the spec's stated
intent, so this is a code bug, witnessed here by evaluating both cases. -/
theorem C7_degenerate_chunk_eval :
    get_excerpts "abc" 2000 2200 = Except.ok [] ∧
    get_excerpts "abc" 2000 2000 = Except.error "range() arg 3 must not be zero" :=
  ⟨rfl, rfl⟩

/-- C8 (amended): after any sequence of per-source imports and removals
from the empty store, the doc-id→source map is the exact inverse of the
source→doc-id map, provided every import's doc id is not currently
assigned to a different source (two sources with identical content violate
this, see the counterexample). -/
theorem C8_maps_inverse_of_safe (m : Models) (ops : List Op)
    (h : safeOps m ops emptyStore = true) :
    MapInv (applyOps m ops emptyStore) :=
  MapInv_applyOps m ops emptyStore MapInv_empty h

/-- Witness for C8: two distinct-content imports followed by a removal. -/
theorem C8_maps_inverse_of_safe_witness :
    safeOps trivialModels
      [Op.importSrc "a" "x", Op.importSrc "b" "y", Op.removeDoc "doc_x"] emptyStore = true ∧
    MapInv (applyOps trivialModels
      [Op.importSrc "a" "x", Op.importSrc "b" "y", Op.removeDoc "doc_x"] emptyStore) :=
  ⟨by decide, C8_maps_inverse_of_safe trivialModels
    [Op.importSrc "a" "x", Op.importSrc "b" "y", Op.removeDoc "doc_x"] (by decide)⟩

/-- C8 counterexample: `import_documents` over two sources with identical
content leaves the maps non-inverse — "a" still maps to doc_x in the
source→doc-id map while doc_x maps to "b" in the doc-id→source map. -/
theorem C8_counterexample :
    ¬ MapInv (import_documents trivialModels ["a", "b"] (fun _ => "x") emptyStore) := by
  intro h
  have h1 := (h "a" "doc_x").mp (by decide)
  have h2 : alistLookup "doc_x"
      (import_documents trivialModels ["a", "b"] (fun _ => "x") emptyStore).docIdToSource =
      some "b" := by decide
  rw [h2] at h1
  exact absurd (Option.some.inj h1) (by decide)

/-- C9: `remove_document_by_id` leaves the knowledge graph exactly
unchanged, and the update flow of `import_documents` changes the graph
only through the extraction leg applied to the prior graph — its removal
step deletes or alters no node, edge, or metadata. -/
theorem C9_removal_preserves_graph (m : Models) (docId source content oldId : String)
    (σ : Store) (h : alistLookup source σ.sourceToDocId = some oldId)
    (hne : oldId ≠ make_hash content "doc_") :
    (remove_document_by_id docId σ).graph = σ.graph ∧
    (importSource m source content σ).graph = extractGraph m content σ.graph := by
  refine ⟨remove_graph_eq docId σ, ?_⟩
  rw [importSource_update_eq h hne]
  show extractGraph m content
    (embed_document m content (make_hash content "doc_")
      (add_document_maps source content (remove_document_by_id oldId σ))).graph =
    extractGraph m content σ.graph
  rw [(embed_document_frame m content (make_hash content "doc_")
    (add_document_maps source content (remove_document_by_id oldId σ))).2.2]
  show extractGraph m content (remove_document_by_id oldId σ).graph =
    extractGraph m content σ.graph
  rw [remove_graph_eq oldId σ]

/-- Witness for C9: removing an unrelated doc id and updating source "a"
from content "x" to content "y". -/
theorem C9_removal_preserves_graph_witness :
    (remove_document_by_id "doc_q" (importSource trivialModels "a" "x" emptyStore)).graph =
      (importSource trivialModels "a" "x" emptyStore).graph ∧
    (importSource trivialModels "a" "y" (importSource trivialModels "a" "x" emptyStore)).graph =
      extractGraph trivialModels "y" (importSource trivialModels "a" "x" emptyStore).graph :=
  C9_removal_preserves_graph trivialModels "doc_q" "a" "y" "doc_x"
    (importSource trivialModels "a" "x" emptyStore) (by decide) (by decide)

/-- C10: if the summary or embedding call fails at excerpt `k` while all
calls for excerpts `0..k−1` succeed, the embedding leg propagates the
failure (`Except.error`) carrying exactly the state written for the first
`k` excerpts — their excerpt and vector records are present, nothing is
rolled back, and the doc→excerpt-ids entry is never written. -/
theorem C10_model_failure_aborts (m : ModelsE) (content docId : String) (σ : Store)
    (k : Nat) (e : String)
    (hk : k < (excerptsOf content).length)
    (hpre : ∀ e' ∈ (excerptsOf content).take k, excerptCallOk m content e' = true)
    (hfail : excerptCallOk m content ((excerptsOf content).getD k "") = false)
    (he : e ∈ (excerptsOf content).take k) :
    embedDocumentE m content docId σ = .error (embedAfter m content docId k σ) ∧
    (embedAfter m content docId k σ).docIdToExcerptIds = σ.docIdToExcerptIds ∧
    (alistLookup (make_hash e "excerpt_id_")
      (embedAfter m content docId k σ).excerptDb).isSome = true ∧
    (alistLookup (make_hash e "excerpt_id_")
      (embedAfter m content docId k σ).vectorDb).isSome = true := by
  have hfa := embedLoopE_fails_at m content docId k (excerptsOf content) 0 σ hk hpre hfail
  refine ⟨?_, ?_, ?_, ?_⟩
  · simp only [embedDocumentE, hfa]
    rfl
  · exact loopStateOf_docIdToExcerptIds m content docId ((excerptsOf content).take k) 0 σ
  · exact (loopStateOf_writes m content docId ((excerptsOf content).take k) 0 σ e he hpre).1
  · exact (loopStateOf_writes m content docId ((excerptsOf content).take k) 0 σ e he hpre).2

/-- Witness for C10: a 1801-character document has two excerpts; the model
calls succeed on the first and fail on the second. -/
theorem C10_model_failure_aborts_witness :
    embedDocumentE failingModels content1801 "doc_a" emptyStore =
      .error (embedAfter failingModels content1801 "doc_a" 1 emptyStore) ∧
    (embedAfter failingModels content1801 "doc_a" 1 emptyStore).docIdToExcerptIds =
      emptyStore.docIdToExcerptIds ∧
    (alistLookup (make_hash (⟨List.replicate 1801 'a'⟩ : String) "excerpt_id_")
      (embedAfter failingModels content1801 "doc_a" 1 emptyStore).excerptDb).isSome = true ∧
    (alistLookup (make_hash (⟨List.replicate 1801 'a'⟩ : String) "excerpt_id_")
      (embedAfter failingModels content1801 "doc_a" 1 emptyStore).vectorDb).isSome = true :=
  C10_model_failure_aborts failingModels content1801 "doc_a" emptyStore 1
    (⟨List.replicate 1801 'a'⟩ : String)
    (by rw [excerptsOf_content1801]; decide)
    (by
      rw [excerptsOf_content1801]
      intro e' he'
      rw [show ([(⟨List.replicate 1801 'a'⟩ : String),
          (⟨List.replicate 1 'a'⟩ : String)].take 1) =
        [(⟨List.replicate 1801 'a'⟩ : String)] from rfl, List.mem_singleton] at he'
      rw [he']
      have hsum : failingModels.summary content1801 (⟨List.replicate 1801 'a'⟩ : String) =
          some "s" := by
        rw [failingModels_summary_eq, strLength_mk, List.length_replicate]
        rfl
      unfold excerptCallOk
      rw [hsum]
      rfl)
    (by
      rw [excerptsOf_content1801]
      rw [show (([(⟨List.replicate 1801 'a'⟩ : String),
          (⟨List.replicate 1 'a'⟩ : String)].getD 1 "")) =
        (⟨List.replicate 1 'a'⟩ : String) from rfl]
      have hsum : failingModels.summary content1801 (⟨List.replicate 1 'a'⟩ : String) =
          none := by
        rw [failingModels_summary_eq, strLength_mk, List.length_replicate]
        rfl
      unfold excerptCallOk
      rw [hsum])
    (by
      rw [excerptsOf_content1801]
      rw [show ([(⟨List.replicate 1801 'a'⟩ : String),
          (⟨List.replicate 1 'a'⟩ : String)].take 1) =
        [(⟨List.replicate 1801 'a'⟩ : String)] from rfl, List.mem_singleton])
